import Mathlib

/-!
Verification development for the schema-mold core: path-addressed JSON
editing (`src/lib/paths.ts`) and schema-driven validation
(`validateField` and its helpers).  The TypeScript sources are embedded
shallowly: JSON values, paths and schema fields become inductive types,
the functions become computable Lean definitions mirroring the source
line by line, and exceptions raised by the JavaScript runtime are
modelled with `Except`.
-/

namespace SchemaMold

/-- Path step: a string (object-property name) or a non-negative array
index, mirroring `type Path = (string | number)[]` restricted to the
syntactically valid steps (non-negative integers). -/
inductive Step where
  | str (s : String)
  | idx (n : Nat)
deriving DecidableEq, Repr

/-- Path: an ordered sequence of steps, mirroring `type Path`. -/
abbrev Path := List Step

/-- JSON value, mirroring `type JSON` from `src/models/schema.ts`.
Numeric literals are modelled as integers; the JSON data model excludes
NaN, which in `validateField` arises only from coercing a non-number
value and is modelled there as `Option.none`. -/
inductive JSON where
  | bool (b : Bool)
  | num (n : Int)
  | str (s : String)
  | null
  | arr (elems : List JSON)
  | obj (fields : List (String × JSON))

/-- Object property lookup, mirroring JavaScript property access
`o[key]` on a plain object with unique keys (`undefined`, i.e. absent,
becomes `none`). -/
def lookupJson (kvs : List (String × JSON)) (k : String) : Option JSON :=
  match kvs with
  | [] => none
  | (k2, v) :: rest => if k2 = k then some v else lookupJson rest k

/-- Type guard `isObject` from `src/lib/paths.ts`: a plain object, not
null, not an array. -/
def isObject : JSON → Bool
  | .obj _ => true
  | _ => false

/-- Loop body of `getAtPath`: `cur` is `JSON | undefined` (absent is
`none`).  At each step, a `null` or absent current node, or a step kind
that does not match the node kind, short-circuits to absent. -/
def getGo : Option JSON → Path → Option JSON
  | cur, [] => cur
  | none, _ :: _ => none
  | some .null, _ :: _ => none
  | some (.arr xs), .idx i :: rest => getGo xs[i]? rest
  | some (.obj kvs), .str k :: rest => getGo (lookupJson kvs k) rest
  | some _, _ :: _ => none

/-- `getAtPath` from `src/lib/paths.ts`. -/
def getAtPath (root : JSON) (path : Path) : Option JSON :=
  getGo (some root) path

/-- Insert-or-replace on an object's property list, mirroring the
JavaScript assignment `base[head] = v` after `{...root}`: an existing
key keeps its position and gets the new value, a new key is appended. -/
def objUpdate (kvs : List (String × JSON)) (k : String) (v : JSON) :
    List (String × JSON) :=
  match kvs with
  | [] => [(k, v)]
  | (k2, v2) :: rest =>
    if k2 = k then (k2, v) :: rest else (k2, v2) :: objUpdate rest k v

/-- Array-family base of `setAtPath`'s numeric branch:
`Array.isArray(root) ? root.slice() : []`. -/
def asArr : JSON → List JSON
  | .arr xs => xs
  | _ => []

/-- Object-family base of `setAtPath`'s string branch:
`isObject(root) ? {...root} : {}`. -/
def asObj : JSON → List (String × JSON)
  | .obj kvs => kvs
  | _ => []

/-- Null padding of `setAtPath`'s while loop:
`while (arr.length <= head) arr.push(null)` extends the list with
`null` until index `n - 1` exists. -/
def padTo (xs : List JSON) (n : Nat) : List JSON :=
  xs ++ List.replicate (n - xs.length) JSON.null

/-- `setAtPath` from `src/lib/paths.ts`.  A numeric head copies the
existing array (or starts fresh when the node is not an array), pads it
with `null` up to the index, and recurses on the old element (`?? null`);
a string head does the analogous thing on an object.  The source's local
variables are inlined through `asArr`/`asObj`/`padTo`. -/
def setAtPath (root : JSON) (path : Path) (value : JSON) : JSON :=
  match path with
  | [] => value
  | .idx i :: rest =>
    .arr ((padTo (asArr root) (i + 1)).set i
      (setAtPath ((padTo (asArr root) (i + 1)).getD i .null) rest value))
  | .str k :: rest =>
    .obj (objUpdate (asObj root) k
      (setAtPath ((lookupJson (asObj root) k).getD .null) rest value))

example : setAtPath (.arr []) [.idx 5] (.str "f")
    = .arr [.null, .null, .null, .null, .null, .str "f"] := rfl

example : getAtPath (.obj [("a", .num 3)]) [.str "a"] = some (.num 3) := rfl

example : getAtPath (setAtPath (.obj [("u", .obj [("n", .str "J")])])
    [.str "u", .str "m"] (.num 7)) [.str "u", .str "n"] = some (.str "J") := rfl

theorem getGo_none (p : Path) : getGo none p = none := by cases p <;> rfl

theorem padTo_lt_length (xs : List JSON) (i : Nat) : i < (padTo xs (i + 1)).length := by
  simp only [padTo, List.length_append, List.length_replicate]
  omega

theorem lookupJson_objUpdate_self (kvs : List (String × JSON)) (k : String) (v : JSON) :
    lookupJson (objUpdate kvs k v) k = some v := by
  induction kvs with
  | nil => simp [objUpdate, lookupJson]
  | cons hd tl ih =>
    obtain ⟨k2, v2⟩ := hd
    by_cases h : k2 = k <;> simp [objUpdate, lookupJson, h, ih]

theorem lookupJson_objUpdate_ne (kvs : List (String × JSON)) (k k' : String) (v : JSON)
    (h : k' ≠ k) : lookupJson (objUpdate kvs k v) k' = lookupJson kvs k' := by
  have hkk : ¬ k = k' := fun hh => h hh.symm
  induction kvs with
  | nil => simp [objUpdate, lookupJson, hkk]
  | cons hd tl ih =>
    obtain ⟨k2, v2⟩ := hd
    by_cases h2 : k2 = k
    · simp [objUpdate, lookupJson, h2, hkk]
    · simp [objUpdate, lookupJson, h2, ih]

theorem getAtPath_cons_str (root : JSON) (k : String) (p : Path) :
    getAtPath root (.str k :: p) = getGo (lookupJson (asObj root) k) p := by
  cases root <;> simp [getAtPath, getGo, asObj, lookupJson, getGo_none]

theorem getAtPath_cons_idx (root : JSON) (i : Nat) (p : Path) :
    getAtPath root (.idx i :: p) = getGo (asArr root)[i]? p := by
  cases root <;> simp [getAtPath, getGo, asArr, getGo_none]

/-- C1.  Path round-trip: for every JSON root, every syntactically valid
path (validity — string or non-negative-integer steps — is intrinsic to
the `Step` type) and every JSON value,
`getAtPath (setAtPath root path value) path` returns exactly `value`. -/
theorem c1_path_round_trip (path : Path) (root value : JSON) :
    getAtPath (setAtPath root path value) path = some value := by
  induction path generalizing root with
  | nil =>
    show getGo (some value) [] = some value
    cases value <;> rfl
  | cons s rest ih =>
    cases s with
    | idx i =>
      have hlen : i < (padTo (asArr root) (i + 1)).length := padTo_lt_length _ _
      calc getAtPath (setAtPath root (.idx i :: rest) value) (.idx i :: rest)
          = getGo ((padTo (asArr root) (i + 1)).set i
              (setAtPath ((padTo (asArr root) (i + 1)).getD i .null) rest value))[i]? rest := by
            rw [setAtPath, getAtPath_cons_idx, asArr]
        _ = some value := by
            rw [List.getElem?_set_eq_of_lt _ hlen]
            exact ih _
    | str k =>
      calc getAtPath (setAtPath root (.str k :: rest) value) (.str k :: rest)
          = getGo (lookupJson (objUpdate (asObj root) k
              (setAtPath ((lookupJson (asObj root) k).getD .null) rest value)) k) rest := by
            rw [setAtPath, getAtPath_cons_str, asObj]
        _ = some value := by
            rw [lookupJson_objUpdate_self]
            exact ih _

/-- Initial-segment test on paths (used only to state the C2
counterexample's side conditions). -/
def pathLeads : Path → Path → Bool
  | [], _ => true
  | _ :: _, [] => false
  | s :: p, s2 :: q => s = s2 && pathLeads p q

/-- C2 counterexample.  With `root = [10]`, `path = ["a"]`, `p2 = [0]`,
neither path is an initial segment of the other, yet writing at `path`
discards the array (the write-wins rule), so reading `p2` afterwards
gives absent instead of `10`: non-interference fails as stated. -/
theorem c2_counterexample :
    pathLeads [Step.str "a"] [Step.idx 0] = false ∧
    pathLeads [Step.idx 0] [Step.str "a"] = false ∧
    getAtPath (setAtPath (.arr [.num 10]) [.str "a"] (.bool true)) [.idx 0]
      ≠ getAtPath (.arr [.num 10]) [.idx 0] := by
  refine ⟨rfl, rfl, ?_⟩
  intro h
  have h1 : getAtPath (setAtPath (.arr [.num 10]) [.str "a"] (.bool true)) [.idx 0]
      = none := rfl
  have h2 : getAtPath (.arr [.num 10]) [.idx 0] = some (.num 10) := rfl
  rw [h1, h2] at h
  exact Option.noConfusion h

/-- C2 amended.  Non-interference holds for every read path `p2` that
first differs from the written `path` at a position where both steps
are object keys (strings): for every common prefix `q`, distinct keys
`a ≠ b` and arbitrary tails `t1`, `t2`,
`getAtPath (setAtPath root (q ++ a :: t1) value) (q ++ b :: t2)`
equals `getAtPath root (q ++ b :: t2)`. -/
theorem c2_amended_string_sibling_frames (q : Path) (a b : String) (t1 t2 : Path)
    (root value : JSON) (hab : a ≠ b) :
    getAtPath (setAtPath root (q ++ .str a :: t1) value) (q ++ .str b :: t2)
      = getAtPath root (q ++ .str b :: t2) := by
  induction q generalizing root with
  | nil =>
    rw [List.nil_append, List.nil_append, setAtPath, getAtPath_cons_str, asObj,
      lookupJson_objUpdate_ne _ _ _ _ (Ne.symm hab), getAtPath_cons_str]
  | cons s q' ih =>
    cases s with
    | str k =>
      rw [List.cons_append, List.cons_append, setAtPath, getAtPath_cons_str, asObj,
        lookupJson_objUpdate_self, getAtPath_cons_str]
      have step : getGo (some (setAtPath ((lookupJson (asObj root) k).getD .null)
          (q' ++ .str a :: t1) value)) (q' ++ .str b :: t2)
          = getAtPath ((lookupJson (asObj root) k).getD .null) (q' ++ .str b :: t2) :=
        ih _
      rw [step]
      cases h : lookupJson (asObj root) k with
      | some w => rfl
      | none =>
        rw [getGo_none]
        show getAtPath .null (q' ++ .str b :: t2) = none
        cases q' <;> rfl
    | idx i =>
      have hlen : i < (padTo (asArr root) (i + 1)).length := padTo_lt_length _ _
      rw [List.cons_append, List.cons_append, setAtPath, getAtPath_cons_idx, asArr,
        List.getElem?_set_eq_of_lt _ hlen, getAtPath_cons_idx]
      have step : getGo (some (setAtPath ((padTo (asArr root) (i + 1)).getD i .null)
          (q' ++ .str a :: t1) value)) (q' ++ .str b :: t2)
          = getAtPath ((padTo (asArr root) (i + 1)).getD i .null) (q' ++ .str b :: t2) :=
        ih _
      rw [step]
      cases h : (asArr root)[i]? with
      | some w =>
        have hi : i < (asArr root).length := by
          by_contra hge
          rw [List.getElem?_eq_none (by omega)] at h
          exact Option.noConfusion h
        have : (padTo (asArr root) (i + 1)).getD i .null = w := by
          rw [List.getD_eq_getElem?_getD, padTo, List.getElem?_append_left hi, h]
          rfl
        rw [this]
        rfl
      | none =>
        have hge : (asArr root).length ≤ i := by
          by_contra hlt
          rw [List.getElem?_eq_getElem (by omega)] at h
          exact Option.noConfusion h
        have : (padTo (asArr root) (i + 1)).getD i .null = .null := by
          rw [List.getD_eq_getElem?_getD, padTo, List.getElem?_append_right hge,
            List.getElem?_replicate_of_lt (by omega)]
          rfl
        rw [this, getGo_none]
        show getAtPath .null (q' ++ .str b :: t2) = none
        cases q' <;> rfl

/-- C2 amended witness: a concrete instance with `root = {"y": 1}`,
writing `"x"` and reading the sibling key `"y"`. -/
theorem c2_amended_witness :
    "x" ≠ "y" ∧
    getAtPath (setAtPath (.obj [("y", .num 1)]) [.str "x"] (.num 2)) [.str "y"]
      = getAtPath (.obj [("y", .num 1)]) [.str "y"] :=
  ⟨by decide, c2_amended_string_sibling_frames [] "x" "y" [] [] _ (.num 2) (by decide)⟩

/-- C7.  Sparse array fill: `setAtPath [] [5] "f"` is a six-element
array with `null` at indices 0–4 and `"f"` at index 5. -/
theorem c7_sparse_array_fill :
    setAtPath (.arr []) [.idx 5] (.str "f")
      = .arr [.null, .null, .null, .null, .null, .str "f"] := rfl

/-- Schema field, mirroring the tagged union `Field` from
`src/models/schema.ts`.  Presentation-only attributes that
`validateField` never reads (`label`, `note`, `placeholder`, `step`,
enum option labels, object `order`) are omitted; enum options are kept
as their canonical `value` strings.  `minLength`/`maxLength`/
`minItems`/`maxItems`/`min`/`max` are numbers, modelled as integers. -/
inductive Field where
  | string (required : Bool) (minLength maxLength : Option Int) (pattern : Option String)
  | number (required : Bool) (min max : Option Int)
  | enum (required : Bool) (options : List String)
  | boolean (required : Bool)
  | object (required : Bool) (properties : List (String × Field))
  | array (required : Bool) (items : Field) (minItems maxItems : Option Int)

/-- Shared `required` flag of a field (`field.required`, with JS
`undefined` read as false). -/
def requiredOf : Field → Bool
  | .string r _ _ _ => r
  | .number r _ _ => r
  | .enum r _ => r
  | .boolean r => r
  | .object r _ => r
  | .array r _ _ _ => r

/-- Errors keyed by path string, mirroring
`type ErrorsByPath = Record<string, string[]>` as an association list
with unique keys in insertion order. -/
abbrev ErrorsByPath := List (String × List String)

/-- Rendering of one path step inside a key (`path.join('/')` converts
numbers with JS number-to-string, here integer printing). -/
def stepToKey : Step → String
  | .str s => s
  | .idx n => toString n

/-- Separator-joined steps, mirroring `path.join('/')`. -/
def joinSteps : List Step → String
  | [] => ""
  | [s] => stepToKey s
  | s :: rest => stepToKey s ++ "/" ++ joinSteps rest

/-- `keyOf` from the validator source: `'/' + path.join('/')`. -/
def keyOf (path : Path) : String := "/" ++ joinSteps path

/-- Append a message under a key, mirroring `(map[k] ??= []).push(msg)`:
an existing key keeps its position and its message list grows at the
end; a missing key is appended with a singleton list. -/
def addAt (m : ErrorsByPath) (k : String) (msg : String) : ErrorsByPath :=
  match m with
  | [] => [(k, [msg])]
  | (k2, msgs) :: rest =>
    if k2 = k then (k2, msgs ++ [msg]) :: rest else (k2, msgs) :: addAt rest k msg

/-- `pushErr` from the validator source. -/
def pushErr (map : ErrorsByPath) (path : Path) (msg : String) : ErrorsByPath :=
  addAt map (keyOf path) msg

/-- Overwrite-or-append of one key, the per-key effect of
`Object.assign(errors, child)`: an existing key keeps its position and
its value is replaced; a new key is appended. -/
def setKey (m : ErrorsByPath) (k : String) (v : List String) : ErrorsByPath :=
  match m with
  | [] => [(k, v)]
  | (k2, v2) :: rest =>
    if k2 = k then (k2, v) :: rest else (k2, v2) :: setKey rest k v

/-- `Object.assign(errors, child)`: every key of `child`, in order, is
written into `errors`. -/
def assign (m src : ErrorsByPath) : ErrorsByPath :=
  src.foldl (fun acc kv => setKey acc kv.1 kv.2) m

/-- Message list stored under a key (absent key reads as the empty
list); a helper for stating the claims. -/
def errAt (m : ErrorsByPath) (k : String) : List String :=
  match m with
  | [] => []
  | (k2, msgs) :: rest => if k2 = k then msgs else errAt rest k

/-- Emptiness test from `validateField`: absent, `null`, the empty
string, or an empty array (an empty object is NOT empty). -/
def isEmptyVal : Option JSON → Bool
  | none => true
  | some .null => true
  | some (.str s) => s.length == 0
  | some (.arr xs) => xs.length == 0
  | some _ => false

/-- Numeric reading from the number branch:
`typeof value === 'number' ? value : Number.NaN`, with NaN as `none`. -/
def jsAsNumber : JSON → Option Int
  | .num n => some n
  | _ => none

mutual
/-- Element rendering used by JS array-to-string joining
(`Array.prototype.join(',')`): `null` renders as the empty string,
other elements via the `String(·)` coercion. -/
def jsElemToString : JSON → String
  | .null => ""
  | .str s => s
  | .num n => toString n
  | .bool b => if b then "true" else "false"
  | .obj _ => "[object Object]"
  | .arr xs => jsJoinList xs

/-- Comma-joined rendering of an array's elements, mirroring
`Array.prototype.toString`. -/
def jsJoinList : List JSON → String
  | [] => ""
  | [x] => jsElemToString x
  | x :: rest => jsElemToString x ++ "," ++ jsJoinList rest
end

/-- JavaScript `String(value)` coercion as used by the string and enum
branches (the guarded value is never absent there; `null` would render
as "null" but is also excluded by the guard). -/
def jsToString : JSON → String
  | .null => "null"
  | .str s => s
  | .num n => toString n
  | .bool b => if b then "true" else "false"
  | .obj _ => "[object Object]"
  | .arr xs => jsJoinList xs

mutual
/-- Modelled from the platform: compilation of `new RegExp(pattern)`.
This scanner rejects a pattern exactly when it ends inside an escape or
inside an unterminated `[...]` class; every pattern it rejects is
genuinely rejected by ECMAScript, but its acceptance is one-sided:
ECMAScript also rejects sources such as `(` or `a{2,1}` that this
scanner accepts.  Theorems therefore rely on it only where it agrees
with the platform: the rejection of `[` (C3, C9's counterexample), and
the acceptance of patterns without any ECMAScript SyntaxCharacter,
which are always valid ECMAScript (`plainLiteralPattern` below). -/
def regexScanMain : List Char → Bool
  | [] => true
  | c :: rest =>
    if c = '\\' then
      match rest with
      | [] => false
      | _ :: rest2 => regexScanMain rest2
    else if c = '[' then regexScanClass rest
    else regexScanMain rest

/-- Scanner state inside a `[...]` character class: the class must be
closed by `]` before the pattern ends. -/
def regexScanClass : List Char → Bool
  | [] => false
  | c :: rest =>
    if c = '\\' then
      match rest with
      | [] => false
      | _ :: rest2 => regexScanClass rest2
    else if c = ']' then regexScanMain rest
    else regexScanClass rest
end

/-- Modelled from the platform: whether `new RegExp(p)` compiles
(returns a RegExp) rather than throwing a SyntaxError. -/
def regexSyntaxOk (p : String) : Bool := regexScanMain p.data

/-- Leading-match test: `p` is an initial run of `l`. -/
def charsLead : List Char → List Char → Bool
  | [], _ => true
  | _ :: _, [] => false
  | a :: ps, b :: ls => a = b && charsLead ps ls

/-- Containment of `p` as a contiguous run of `l`. -/
def charsWithin (p : List Char) : List Char → Bool
  | [] => charsLead p []
  | c :: rest => charsLead p (c :: rest) || charsWithin p rest

/-- Modelled from the platform: the unanchored `re.test(s)` search of a
compiled pattern, restricted to literal patterns, where the ECMAScript
semantics is exactly substring containment.  No theorem in this
development depends on a match outcome. -/
def regexTest (p s : String) : Bool := charsWithin p.data s.data

/-- Required/emptiness step of `validateField`:
`if (field.required && isEmpty) pushErr(errors, path, ...)` applied to
the initially empty error map. -/
def requiredErrors (field : Field) (value : Option JSON) (path : Path) : ErrorsByPath :=
  if requiredOf field && isEmptyVal value then
    pushErr [] path "This field is required."
  else []

/-- `minLength` check of the string branch:
`if (field.minLength != null && s.length < field.minLength)`. -/
def lenMinCheck (minLength : Option Int) (s : String) (path : Path)
    (errors : ErrorsByPath) : ErrorsByPath :=
  match minLength with
  | some m =>
    if (s.length : Int) < m then
      pushErr errors path ("Must be at least " ++ toString m ++ " characters.")
    else errors
  | none => errors

/-- `maxLength` check of the string branch. -/
def lenMaxCheck (maxLength : Option Int) (s : String) (path : Path)
    (errors : ErrorsByPath) : ErrorsByPath :=
  match maxLength with
  | some m =>
    if (s.length : Int) > m then
      pushErr errors path ("Must be at most " ++ toString m ++ " characters.")
    else errors
  | none => errors

/-- `pattern` check of the string branch.  `if (field.pattern)` skips
both a missing and an empty pattern (JS truthiness); a non-compiling
pattern is the uncaught `new RegExp` SyntaxError, modelled as
`Except.error`. -/
def patCheck (pattern : Option String) (s : String) (path : Path)
    (errors : ErrorsByPath) : Except String ErrorsByPath :=
  match pattern with
  | some p =>
    if p = "" then .ok errors
    else if regexSyntaxOk p then
      .ok (if regexTest p s then errors else pushErr errors path "Invalid format.")
    else .error "SyntaxError: Invalid regular expression"
  | none => .ok errors

/-- String-kind checks of `validateField` on the coerced string `s`:
`minLength`, `maxLength`, then `pattern`, in source order. -/
def stringKindCheck (minLength maxLength : Option Int) (pattern : Option String)
    (s : String) (path : Path) (errors : ErrorsByPath) : Except String ErrorsByPath :=
  patCheck pattern s path (lenMaxCheck maxLength s path (lenMinCheck minLength s path errors))

/-- Number-kind checks of `validateField` on the numeric reading `n`
(`none` is NaN): the type check, then `min`, then `max`.  A NaN
comparison against a bound is false, so `none` never fires a range
message. -/
def numberKindCheck (min max : Option Int) (n : Option Int) (path : Path)
    (errors : ErrorsByPath) : ErrorsByPath :=
  let errors := if n.isNone then pushErr errors path "Must be a number." else errors
  let errors := match min, n with
    | some m, some k =>
      if k < m then pushErr errors path ("Must be at least " ++ toString m ++ ".")
      else errors
    | some _, none => errors
    | none, _ => errors
  match max, n with
  | some m, some k =>
    if k > m then pushErr errors path ("Must be at most " ++ toString m ++ ".")
    else errors
  | some _, none => errors
  | none, _ => errors

/-- Enum-kind check of `validateField`: membership of the coerced
string in the option values. -/
def enumKindCheck (options : List String) (s : String) (path : Path)
    (errors : ErrorsByPath) : ErrorsByPath :=
  if options.contains s then errors else pushErr errors path "Invalid choice."

/-- `minItems` check of the array branch. -/
def itemsMinCheck (minItems : Option Int) (len : Nat) (path : Path)
    (errors : ErrorsByPath) : ErrorsByPath :=
  match minItems with
  | some m =>
    if (len : Int) < m then pushErr errors path ("At least " ++ toString m ++ " items.")
    else errors
  | none => errors

/-- `maxItems` check of the array branch. -/
def itemsMaxCheck (maxItems : Option Int) (len : Nat) (path : Path)
    (errors : ErrorsByPath) : ErrorsByPath :=
  match maxItems with
  | some m =>
    if (len : Int) > m then pushErr errors path ("At most " ++ toString m ++ " items.")
    else errors
  | none => errors

/-- Array length checks of `validateField`: `minItems` then
`maxItems` against the element count. -/
def arrayLenCheck (minItems maxItems : Option Int) (len : Nat) (path : Path)
    (errors : ErrorsByPath) : ErrorsByPath :=
  itemsMaxCheck maxItems len path (itemsMinCheck minItems len path errors)

mutual
/-- `validateField` from the validator source, with the uncaught
JavaScript exception of `new RegExp(pattern)` on a non-compiling
pattern modelled as `Except.error`.  The required/emptiness check runs
first (`requiredErrors`), then the kind-specific checks in source
order, factored into the per-kind helpers above. -/
def validateField (field : Field) (value : Option JSON) (path : Path) :
    Except String ErrorsByPath :=
  let errors := requiredErrors field value path
  match field with
  | .string _ minLength maxLength pattern =>
    match value with
    | none => .ok errors
    | some .null => .ok errors
    | some v => stringKindCheck minLength maxLength pattern (jsToString v) path errors
  | .number _ min max =>
    match value with
    | none => .ok errors
    | some .null => .ok errors
    | some v => .ok (numberKindCheck min max (jsAsNumber v) path errors)
  | .enum _ options =>
    match value with
    | none => .ok errors
    | some .null => .ok errors
    | some v => .ok (enumKindCheck options (jsToString v) path errors)
  | .boolean _ => .ok errors
  | .object _ properties =>
    match value with
    | some (.obj kvs) => validateProps properties kvs path errors
    | _ => .ok errors
  | .array _ items minItems maxItems =>
    match value with
    | none => .ok errors
    | some .null => .ok errors
    | some (.arr xs) =>
      validateItems items xs path 0 (arrayLenCheck minItems maxItems xs.length path errors)
    | some _ => .ok (pushErr errors path "Must be an array.")
termination_by (sizeOf field, 0)

/-- Loop over an object field's declared properties
(`for (const key of Object.keys(field.properties))`), reading each
child value (`value[key]`, absent as `none`), appending the property
name to the path, and merging the child's error map with
`Object.assign`.  A child's exception aborts the loop, as in JS. -/
def validateProps (props : List (String × Field)) (kvs : List (String × JSON))
    (path : Path) (errors : ErrorsByPath) : Except String ErrorsByPath :=
  match props with
  | [] => .ok errors
  | (key, child) :: rest =>
    match validateField child (lookupJson kvs key) (path ++ [Step.str key]) with
    | .error e => .error e
    | .ok childErrs => validateProps rest kvs path (assign errors childErrs)
termination_by (sizeOf props, 0)

/-- Loop over an array's elements
(`value.forEach((item, i) => ...)`), validating every element against
the `items` field with the numeric index appended to the path, merging
with `Object.assign`.  An element's exception aborts the loop. -/
def validateItems (items : Field) (xs : List JSON) (path : Path) (i : Nat)
    (errors : ErrorsByPath) : Except String ErrorsByPath :=
  match xs with
  | [] => .ok errors
  | x :: rest =>
    match validateField items (some x) (path ++ [Step.idx i]) with
    | .error e => .error e
    | .ok childErrs => validateItems items rest path (i + 1) (assign errors childErrs)
termination_by (sizeOf items, sizeOf xs)
end

/-- `isValid` from the validator source: no keys means valid. -/
def isValid (errors : ErrorsByPath) : Bool := errors.length == 0

theorem requiredErrors_eq (f : Field) (v : Option JSON) (path : Path) :
    requiredErrors f v path
      = if requiredOf f && isEmptyVal v then [(keyOf path, ["This field is required."])]
        else [] := by
  simp [requiredErrors, pushErr, addAt]

theorem validateField_absent (f : Field) (path : Path) :
    validateField f none path = .ok (requiredErrors f none path) := by
  cases f <;> rw [validateField.eq_def]

theorem validateField_null (f : Field) (path : Path) :
    validateField f (some .null) path = .ok (requiredErrors f (some .null) path) := by
  cases f <;> rw [validateField.eq_def]

theorem validateField_string_some (r : Bool) (mnl mxl : Option Int) (pat : Option String)
    (v : JSON) (path : Path) (h : v ≠ .null) :
    validateField (.string r mnl mxl pat) (some v) path
      = stringKindCheck mnl mxl pat (jsToString v) path
          (requiredErrors (.string r mnl mxl pat) (some v) path) := by
  cases v <;> first
    | exact absurd rfl h
    | rw [validateField.eq_def]

theorem validateField_number_some (r : Bool) (mn mx : Option Int) (v : JSON) (path : Path)
    (h : v ≠ .null) :
    validateField (.number r mn mx) (some v) path
      = .ok (numberKindCheck mn mx (jsAsNumber v) path
          (requiredErrors (.number r mn mx) (some v) path)) := by
  cases v <;> first
    | exact absurd rfl h
    | rw [validateField.eq_def]

theorem validateField_enum_some (r : Bool) (options : List String) (v : JSON) (path : Path)
    (h : v ≠ .null) :
    validateField (.enum r options) (some v) path
      = .ok (enumKindCheck options (jsToString v) path
          (requiredErrors (.enum r options) (some v) path)) := by
  cases v <;> first
    | exact absurd rfl h
    | rw [validateField.eq_def]

theorem validateField_boolean (r : Bool) (v : Option JSON) (path : Path) :
    validateField (.boolean r) v path = .ok (requiredErrors (.boolean r) v path) := by
  rw [validateField.eq_def]

theorem validateField_object_nonobj (r : Bool) (props : List (String × Field)) (v : JSON)
    (path : Path) (h : ∀ kvs, v ≠ .obj kvs) :
    validateField (.object r props) (some v) path
      = .ok (requiredErrors (.object r props) (some v) path) := by
  cases v <;> first
    | exact absurd rfl (h _)
    | rw [validateField.eq_def]

theorem validateField_object_obj (r : Bool) (props : List (String × Field))
    (kvs : List (String × JSON)) (path : Path) :
    validateField (.object r props) (some (.obj kvs)) path
      = validateProps props kvs path (requiredErrors (.object r props) (some (.obj kvs)) path) := by
  rw [validateField.eq_def]

theorem validateField_array_nonarr (r : Bool) (items : Field) (mnI mxI : Option Int)
    (v : JSON) (path : Path) (hnull : v ≠ .null) (harr : ∀ xs, v ≠ .arr xs) :
    validateField (.array r items mnI mxI) (some v) path
      = .ok (pushErr (requiredErrors (.array r items mnI mxI) (some v) path) path
          "Must be an array.") := by
  cases v <;> first
    | exact absurd rfl hnull
    | exact absurd rfl (harr _)
    | rw [validateField.eq_def]

theorem validateField_array_arr (r : Bool) (items : Field) (mnI mxI : Option Int)
    (xs : List JSON) (path : Path) :
    validateField (.array r items mnI mxI) (some (.arr xs)) path
      = validateItems items xs path 0 (arrayLenCheck mnI mxI xs.length path
          (requiredErrors (.array r items mnI mxI) (some (.arr xs)) path)) := by
  rw [validateField.eq_def]

theorem errAt_addAt (m : ErrorsByPath) (k k2 msg : String) :
    errAt (addAt m k msg) k2 = if k2 = k then errAt m k2 ++ [msg] else errAt m k2 := by
  induction m with
  | nil =>
    simp only [addAt, errAt]
    by_cases h : k = k2
    · subst h; simp
    · have h2 : ¬ k2 = k := fun hh => h hh.symm
      simp [h, h2]
  | cons hd tl ih =>
    obtain ⟨k3, msgs⟩ := hd
    simp only [addAt]
    by_cases h3 : k3 = k
    · subst h3
      simp only [if_pos rfl, errAt]
      by_cases h : k3 = k2
      · subst h; simp [errAt]
      · have h2 : ¬ k2 = k3 := fun hh => h hh.symm
        simp [errAt, h, h2]
    · simp only [if_neg h3, errAt]
      by_cases h : k3 = k2
      · have hk2 : ¬ k2 = k := fun hh => h3 (h.trans hh)
        simp [errAt, h, hk2]
      · simp [errAt, h, ih]

theorem errAt_setKey (m : ErrorsByPath) (k k2 : String) (v : List String) :
    errAt (setKey m k v) k2 = if k2 = k then v else errAt m k2 := by
  induction m with
  | nil =>
    simp only [setKey, errAt]
    by_cases h : k = k2
    · subst h; simp
    · have h2 : ¬ k2 = k := fun hh => h hh.symm
      simp [h, h2]
  | cons hd tl ih =>
    obtain ⟨k3, msgs⟩ := hd
    simp only [setKey]
    by_cases h3 : k3 = k
    · subst h3
      simp only [if_pos rfl, errAt]
      by_cases h : k3 = k2
      · subst h; simp [errAt]
      · have h2 : ¬ k2 = k3 := fun hh => h hh.symm
        simp [errAt, h, h2]
    · simp only [if_neg h3, errAt]
      by_cases h : k3 = k2
      · have hk2 : ¬ k2 = k := fun hh => h3 (h.trans hh)
        simp [errAt, h, hk2]
      · simp [errAt, h, ih]

theorem errAt_assign_of_ne (m src : ErrorsByPath) (k : String)
    (h : ∀ kv ∈ src, kv.1 ≠ k) :
    errAt (assign m src) k = errAt m k := by
  induction src generalizing m with
  | nil => rfl
  | cons hd tl ih =>
    obtain ⟨k2, v2⟩ := hd
    show errAt (assign (setKey m k2 v2) tl) k = errAt m k
    rw [ih _ (fun kv hkv => h kv (List.mem_cons_of_mem _ hkv)), errAt_setKey]
    have : ¬ k = k2 := fun hh => h (k2, v2) (List.mem_cons_self _ _) hh.symm
    simp [this]

theorem addAt_requiredPart (c : Bool) (k m1 m2 : String) :
    addAt (if c then [(k, [m1])] else []) k m2
      = [(k, (if c then [m1] else []) ++ [m2])] := by
  cases c <;> simp [addAt]

/-- C3 behaviour at the failing input.  The field
`{kind: 'string', pattern: '['}` with present value `"x"` reaches
`new RegExp('[')`, whose SyntaxError propagates out of `validateField`
instead of a returned error map: the never-throws claim fails on the
code. -/
theorem c3_malformed_pattern_throws :
    validateField (.string false none none (some "[")) (some (.str "x")) []
      = .error "SyntaxError: Invalid regular expression" := by
  rw [validateField.eq_def]
  rfl

/-- C4.  Validating `{kind: 'string', required: true}` against the
empty string and against the absent value each yield exactly the map
`{"/": ["This field is required."]}`. -/
theorem c4_required_empty_single_error :
    validateField (.string true none none none) (some (.str "")) []
        = .ok [("/", ["This field is required."])] ∧
    validateField (.string true none none none) none []
        = .ok [("/", ["This field is required."])] := by
  constructor <;> (rw [validateField.eq_def]; rfl)

/-- C5 counterexample.  For the number field
`{kind: 'number', required: true, min: 10}` and the present non-numeric
value `""`, the message list at the root key also contains the required
message, so the result is not the single-message map the claim
states. -/
theorem c5_counterexample :
    validateField (.number true (some 10) none) (some (.str "")) []
      = .ok [("/", ["This field is required.", "Must be a number."])] ∧
    errAt [("/", ["This field is required.", "Must be a number."])] "/"
      ≠ ["Must be a number."] :=
  ⟨by rw [validateField.eq_def]; rfl, by decide⟩

theorem numberKindCheck_nan (mn mx : Option Int) (path : Path) (E : ErrorsByPath) :
    numberKindCheck mn mx none path E = addAt E (keyOf path) "Must be a number." := by
  cases mn <;> cases mx <;> rfl

/-- C5 amended.  For every number field (any `required`, `min`, `max`)
and every present, non-null, non-numeric value, the returned map has the
single key of the current path holding `"Must be a number."`, preceded
by the required message exactly when the field is required and the value
is empty — in particular no range message ever fires (NaN comparisons
are false). -/
theorem c5_amended_nan_only_type_error (req : Bool) (mn mx : Option Int) (path : Path)
    (v : JSON) (hnull : v ≠ .null) (hnum : jsAsNumber v = none) :
    validateField (.number req mn mx) (some v) path
      = .ok [(keyOf path,
          (if req && isEmptyVal (some v) then ["This field is required."] else [])
            ++ ["Must be a number."])] := by
  rw [validateField_number_some _ _ _ _ _ hnull, hnum, numberKindCheck_nan,
    requiredErrors_eq]
  simp only [requiredOf]
  rw [addAt_requiredPart]

/-- C5 amended witness at the concrete field
`{kind: 'number', min: 10, max: 5}` and value `"a"`. -/
theorem c5_amended_witness :
    (JSON.str "a" ≠ JSON.null) ∧ jsAsNumber (JSON.str "a") = none ∧
    validateField (.number false (some 10) (some 5)) (some (.str "a")) []
      = .ok [("/", ["Must be a number."])] :=
  ⟨fun h => JSON.noConfusion h, rfl,
    c5_amended_nan_only_type_error false (some 10) (some 5) [] (.str "a")
      (fun h => JSON.noConfusion h) rfl⟩

/-- C6.  The inverted-bounds field `{kind: 'number', min: 10, max: 5}`
against the numeric value `7` yields both range messages, in source
order, at the same root key. -/
theorem c6_min_max_fire_independently :
    validateField (.number false (some 10) (some 5)) (some (.num 7)) []
      = .ok [("/", ["Must be at least 10.", "Must be at most 5."])] := by
  rw [validateField.eq_def]
  rfl

/-- C8.  For every array field and every present, non-null, non-array
value, the result is a single-key map at the current path whose
messages are the optional required message followed by
`"Must be an array."` — in particular there is no recursion into
`items` and no key strictly below the current path. -/
theorem c8_array_type_error_stops_recursion (req : Bool) (items : Field)
    (mnI mxI : Option Int) (path : Path) (v : JSON)
    (hnull : v ≠ .null) (harr : ∀ xs, v ≠ .arr xs) :
    validateField (.array req items mnI mxI) (some v) path
      = .ok [(keyOf path,
          (if req && isEmptyVal (some v) then ["This field is required."] else [])
            ++ ["Must be an array."])] := by
  rw [validateField_array_nonarr _ _ _ _ _ _ hnull harr, requiredErrors_eq]
  simp only [requiredOf, pushErr]
  rw [addAt_requiredPart]

/-- C8 witness at the concrete array field with boolean items and the
non-array value `3`. -/
theorem c8_witness :
    (JSON.num 3 ≠ JSON.null) ∧ (∀ xs, JSON.num 3 ≠ JSON.arr xs) ∧
    validateField (.array false (.boolean false) none none) (some (.num 3)) []
      = .ok [("/", ["Must be an array."])] :=
  ⟨fun h => JSON.noConfusion h, fun _ h => JSON.noConfusion h,
    c8_array_type_error_stops_recursion false (.boolean false) none none [] (.num 3)
      (fun h => JSON.noConfusion h) (fun _ h => JSON.noConfusion h)⟩

/-- C10.  For every object field and every present, non-null value that
is not a mapping, there is no kind-mismatch message and no recursion
into the declared properties: the returned map is empty apart from the
possible required-emptiness message at the current path. -/
theorem c10_object_kind_mismatch_silent (req : Bool) (props : List (String × Field))
    (path : Path) (v : JSON) (_hnull : v ≠ .null) (hobj : ∀ kvs, v ≠ .obj kvs) :
    validateField (.object req props) (some v) path
      = .ok (if req && isEmptyVal (some v)
          then [(keyOf path, ["This field is required."])] else []) := by
  rw [validateField_object_nonobj _ _ _ _ hobj, requiredErrors_eq]
  simp only [requiredOf]

theorem errAt_push_decomp (E : ErrorsByPath) (path : Path) (msg k2 : String) :
    ∃ e, errAt (pushErr E path msg) k2 = errAt E k2 ++ e ∧ ∀ x ∈ e, x = msg := by
  by_cases h : k2 = keyOf path
  · exact ⟨[msg], by rw [pushErr, errAt_addAt, if_pos h], by simp⟩
  · exact ⟨[], by rw [pushErr, errAt_addAt, if_neg h, List.append_nil], by simp⟩

theorem lenMinCheck_errAt (mnl : Option Int) (s : String) (path : Path)
    (E : ErrorsByPath) (k2 : String) :
    ∃ e, errAt (lenMinCheck mnl s path E) k2 = errAt E k2 ++ e ∧
      ∀ x ∈ e, ∃ b : Int, x = "Must be at least " ++ toString b ++ " characters." := by
  cases mnl with
  | none => exact ⟨[], by rw [lenMinCheck, List.append_nil], by simp⟩
  | some m =>
    by_cases hc : (s.length : Int) < m
    · obtain ⟨e, he, hall⟩ := errAt_push_decomp E path
        ("Must be at least " ++ toString m ++ " characters.") k2
      refine ⟨e, ?_, fun x hx => ⟨m, hall x hx⟩⟩
      rw [lenMinCheck, if_pos hc]
      exact he
    · exact ⟨[], by rw [lenMinCheck, if_neg hc, List.append_nil], by simp⟩

theorem lenMaxCheck_errAt (mxl : Option Int) (s : String) (path : Path)
    (E : ErrorsByPath) (k2 : String) :
    ∃ e, errAt (lenMaxCheck mxl s path E) k2 = errAt E k2 ++ e ∧
      ∀ x ∈ e, ∃ b : Int, x = "Must be at most " ++ toString b ++ " characters." := by
  cases mxl with
  | none => exact ⟨[], by rw [lenMaxCheck, List.append_nil], by simp⟩
  | some m =>
    by_cases hc : (s.length : Int) > m
    · obtain ⟨e, he, hall⟩ := errAt_push_decomp E path
        ("Must be at most " ++ toString m ++ " characters.") k2
      refine ⟨e, ?_, fun x hx => ⟨m, hall x hx⟩⟩
      rw [lenMaxCheck, if_pos hc]
      exact he
    · exact ⟨[], by rw [lenMaxCheck, if_neg hc, List.append_nil], by simp⟩

theorem itemsMinCheck_errAt (mnI : Option Int) (len : Nat) (path : Path)
    (E : ErrorsByPath) (k2 : String) :
    ∃ e, errAt (itemsMinCheck mnI len path E) k2 = errAt E k2 ++ e ∧
      ∀ x ∈ e, ∃ b : Int, x = "At least " ++ toString b ++ " items." := by
  cases mnI with
  | none => exact ⟨[], by rw [itemsMinCheck, List.append_nil], by simp⟩
  | some m =>
    by_cases hc : (len : Int) < m
    · obtain ⟨e, he, hall⟩ := errAt_push_decomp E path
        ("At least " ++ toString m ++ " items.") k2
      refine ⟨e, ?_, fun x hx => ⟨m, hall x hx⟩⟩
      rw [itemsMinCheck, if_pos hc]
      exact he
    · exact ⟨[], by rw [itemsMinCheck, if_neg hc, List.append_nil], by simp⟩

theorem itemsMaxCheck_errAt (mxI : Option Int) (len : Nat) (path : Path)
    (E : ErrorsByPath) (k2 : String) :
    ∃ e, errAt (itemsMaxCheck mxI len path E) k2 = errAt E k2 ++ e ∧
      ∀ x ∈ e, ∃ b : Int, x = "At most " ++ toString b ++ " items." := by
  cases mxI with
  | none => exact ⟨[], by rw [itemsMaxCheck, List.append_nil], by simp⟩
  | some m =>
    by_cases hc : (len : Int) > m
    · obtain ⟨e, he, hall⟩ := errAt_push_decomp E path
        ("At most " ++ toString m ++ " items.") k2
      refine ⟨e, ?_, fun x hx => ⟨m, hall x hx⟩⟩
      rw [itemsMaxCheck, if_pos hc]
      exact he
    · exact ⟨[], by rw [itemsMaxCheck, if_neg hc, List.append_nil], by simp⟩

/-- Compilation test on a field's pattern attribute: `if (field.pattern)`
is falsy (so `new RegExp` is never called) or the pattern compiles. -/
def patternCompiles : Option String → Bool
  | none => true
  | some p => p == "" || regexSyntaxOk p

theorem patCheck_errAt (pat : Option String) (s : String) (path : Path)
    (E : ErrorsByPath) (k2 : String) (hpat : patternCompiles pat = true) :
    ∃ m e, patCheck pat s path E = .ok m ∧ errAt m k2 = errAt E k2 ++ e ∧
      ∀ x ∈ e, x = "Invalid format." := by
  cases pat with
  | none => exact ⟨E, [], rfl, by rw [List.append_nil], by simp⟩
  | some p =>
    by_cases hp : p = ""
    · subst hp
      exact ⟨E, [], rfl, by rw [List.append_nil], by simp⟩
    · have hok : regexSyntaxOk p = true := by
        have := hpat
        simp [patternCompiles, hp] at this
        exact this
      rw [patCheck, if_neg hp, if_pos hok]
      by_cases ht : regexTest p s = true
      · rw [if_pos ht]
        exact ⟨E, [], rfl, by rw [List.append_nil], by simp⟩
      · rw [if_neg ht]
        obtain ⟨e, he, hall⟩ := errAt_push_decomp E path "Invalid format." k2
        exact ⟨_, e, rfl, he, hall⟩

/-- Disjunction of all messages the string kind can push. -/
def stringMsgLike (x : String) : Prop :=
  (∃ b : Int, x = "Must be at least " ++ toString b ++ " characters.") ∨
  (∃ b : Int, x = "Must be at most " ++ toString b ++ " characters.") ∨
  x = "Invalid format."

theorem stringKindCheck_errAt (mnl mxl : Option Int) (pat : Option String) (s : String)
    (path : Path) (E : ErrorsByPath) (k2 : String) (hpat : patternCompiles pat = true) :
    ∃ m e, stringKindCheck mnl mxl pat s path E = .ok m ∧
      errAt m k2 = errAt E k2 ++ e ∧ ∀ x ∈ e, stringMsgLike x := by
  obtain ⟨e1, he1, hall1⟩ := lenMinCheck_errAt mnl s path E k2
  obtain ⟨e2, he2, hall2⟩ := lenMaxCheck_errAt mxl s path (lenMinCheck mnl s path E) k2
  obtain ⟨m, e3, hm, he3, hall3⟩ :=
    patCheck_errAt pat s path (lenMaxCheck mxl s path (lenMinCheck mnl s path E)) k2 hpat
  refine ⟨m, e1 ++ e2 ++ e3, hm, ?_, ?_⟩
  · rw [he3, he2, he1, List.append_assoc, List.append_assoc, List.append_assoc]
  · intro x hx
    rcases List.mem_append.1 hx with hx12 | hx3
    · rcases List.mem_append.1 hx12 with hx1 | hx2
      · exact Or.inl (hall1 x hx1)
      · exact Or.inr (Or.inl (hall2 x hx2))
    · exact Or.inr (Or.inr (hall3 x hx3))

theorem arrayLenCheck_errAt (mnI mxI : Option Int) (len : Nat) (path : Path)
    (E : ErrorsByPath) (k2 : String) :
    ∃ e, errAt (arrayLenCheck mnI mxI len path E) k2 = errAt E k2 ++ e ∧
      ∀ x ∈ e, (∃ b : Int, x = "At least " ++ toString b ++ " items.") ∨
        (∃ b : Int, x = "At most " ++ toString b ++ " items.") := by
  obtain ⟨e1, he1, hall1⟩ := itemsMinCheck_errAt mnI len path E k2
  obtain ⟨e2, he2, hall2⟩ := itemsMaxCheck_errAt mxI len path (itemsMinCheck mnI len path E) k2
  refine ⟨e1 ++ e2, ?_, ?_⟩
  · rw [arrayLenCheck, he2, he1, List.append_assoc]
  · intro x hx
    rcases List.mem_append.1 hx with hx1 | hx2
    · exact Or.inl (hall1 x hx1)
    · exact Or.inr (hall2 x hx2)

theorem req_ne_must_least_chars (t : String) :
    "This field is required." ≠ "Must be at least " ++ t ++ " characters." := by
  intro h
  have h2 : ("This field is required.".data).head?
      = (("Must be at least " ++ t ++ " characters.").data).head? := by rw [h]
  rw [String.data_append, String.data_append,
    show "This field is required.".data = 'T' :: "his field is required.".data from rfl,
    show "Must be at least ".data = 'M' :: "ust be at least ".data from rfl] at h2
  simp at h2

theorem req_ne_must_most_chars (t : String) :
    "This field is required." ≠ "Must be at most " ++ t ++ " characters." := by
  intro h
  have h2 : ("This field is required.".data).head?
      = (("Must be at most " ++ t ++ " characters.").data).head? := by rw [h]
  rw [String.data_append, String.data_append,
    show "This field is required.".data = 'T' :: "his field is required.".data from rfl,
    show "Must be at most ".data = 'M' :: "ust be at most ".data from rfl] at h2
  simp at h2

theorem req_ne_at_least_items (t : String) :
    "This field is required." ≠ "At least " ++ t ++ " items." := by
  intro h
  have h2 : ("This field is required.".data).head?
      = (("At least " ++ t ++ " items.").data).head? := by rw [h]
  rw [String.data_append, String.data_append,
    show "This field is required.".data = 'T' :: "his field is required.".data from rfl,
    show "At least ".data = 'A' :: "t least ".data from rfl] at h2
  simp at h2

theorem req_ne_at_most_items (t : String) :
    "This field is required." ≠ "At most " ++ t ++ " items." := by
  intro h
  have h2 : ("This field is required.".data).head?
      = (("At most " ++ t ++ " items.").data).head? := by rw [h]
  rw [String.data_append, String.data_append,
    show "This field is required.".data = 'T' :: "his field is required.".data from rfl,
    show "At most ".data = 'A' :: "t most ".data from rfl] at h2
  simp at h2

theorem not_stringMsgLike_req : ¬ stringMsgLike "This field is required." := by
  intro h
  rcases h with ⟨b, hb⟩ | ⟨b, hb⟩ | hb
  · exact req_ne_must_least_chars (toString b) hb
  · exact req_ne_must_most_chars (toString b) hb
  · exact absurd hb (by decide)

theorem errAt_requiredPart (c : Bool) (k : String) :
    errAt (if c then [(k, ["This field is required."])] else []) k
      = if c then ["This field is required."] else [] := by
  cases c <;> simp [errAt]

theorem enumKindCheck_errAt (options : List String) (s : String) (path : Path)
    (E : ErrorsByPath) (k2 : String) :
    ∃ e, errAt (enumKindCheck options s path E) k2 = errAt E k2 ++ e ∧
      ∀ x ∈ e, x = "Invalid choice." := by
  by_cases hc : options.contains s = true
  · exact ⟨[], by rw [enumKindCheck, if_pos hc, List.append_nil], by simp⟩
  · obtain ⟨e, he, hall⟩ := errAt_push_decomp E path "Invalid choice." k2
    exact ⟨e, by rw [enumKindCheck, if_neg hc]; exact he, hall⟩

theorem joinSteps_append_single (p : Path) (s : Step) :
    joinSteps (p ++ [s])
      = joinSteps p ++ (if p.isEmpty then "" else "/") ++ stepToKey s := by
  induction p with
  | nil => simp [joinSteps]
  | cons a p' ih =>
    cases p' with
    | nil => simp [joinSteps]
    | cons b p'' =>
      have lhs : joinSteps ((a :: b :: p'') ++ [s])
          = stepToKey a ++ "/" ++ joinSteps ((b :: p'') ++ [s]) := rfl
      rw [lhs, ih]
      simp [joinSteps, String.append_assoc]

theorem eq_empty_of_length_eq_zero (s : String) (h : s.length = 0) : s = "" := by
  cases s with
  | mk data =>
    cases data with
    | nil => rfl
    | cons c cs => simp [String.length] at h

theorem keyOf_append_single_ne (p : Path) (s : Step)
    (h : p ≠ [] ∨ stepToKey s ≠ "") : keyOf (p ++ [s]) ≠ keyOf p := by
  intro heq
  have hlen := congrArg String.length heq
  rw [keyOf, keyOf, joinSteps_append_single] at hlen
  simp only [String.length_append] at hlen
  have hslash : "/".length = 1 := rfl
  rcases h with hp | hs
  · have hpe : p.isEmpty = false := by
      cases p with
      | nil => exact absurd rfl hp
      | cons a l => rfl
    rw [hpe] at hlen
    simp at hlen
    omega
  · have hsl : (stepToKey s).length ≠ 0 := fun h0 => hs (eq_empty_of_length_eq_zero _ h0)
    by_cases hpe : p.isEmpty
    · rw [hpe] at hlen
      simp at hlen
      omega
    · simp only [Bool.not_eq_true] at hpe
      rw [hpe] at hlen
      simp at hlen
      omega

theorem validateItems_nil (items : Field) (path : Path) (i : Nat) (E : ErrorsByPath) :
    validateItems items [] path i E = .ok E := by
  rw [validateItems.eq_def]

theorem validateProps_nil (kvs : List (String × JSON)) (path : Path) (E : ErrorsByPath) :
    validateProps [] kvs path E = .ok E := by
  rw [validateProps.eq_def]

theorem validateProps_absent_values (props : List (String × Field)) (path : Path)
    (E : ErrorsByPath) (k2 : String)
    (hk : ∀ kv ∈ props, keyOf (path ++ [Step.str kv.1]) ≠ k2) :
    ∃ m, validateProps props [] path E = .ok m ∧ errAt m k2 = errAt E k2 := by
  induction props generalizing E with
  | nil => exact ⟨E, validateProps_nil _ _ _, rfl⟩
  | cons hd rest ih =>
    obtain ⟨key, child⟩ := hd
    have h1 : validateField child (lookupJson [] key) (path ++ [Step.str key])
        = .ok (requiredErrors child none (path ++ [Step.str key])) :=
      validateField_absent child _
    have h2 : validateProps ((key, child) :: rest) [] path E
        = validateProps rest [] path
            (assign E (requiredErrors child none (path ++ [Step.str key]))) := by
      simp only [validateProps]
      rw [h1]
    have hx : ∀ kv ∈ requiredErrors child none (path ++ [Step.str key]), kv.1 ≠ k2 := by
      rw [requiredErrors_eq]
      intro kv hkv
      by_cases hc : (requiredOf child && isEmptyVal none) = true
      · rw [if_pos hc] at hkv
        rw [List.mem_singleton] at hkv
        rw [hkv]
        exact hk (key, child) (List.mem_cons_self _ _)
      · rw [if_neg hc] at hkv
        exact absurd hkv (List.not_mem_nil _)
    obtain ⟨m, hm, he⟩ := ih (assign E (requiredErrors child none (path ++ [Step.str key])))
      (fun kv hkv => hk kv (List.mem_cons_of_mem _ hkv))
    exact ⟨m, h2.trans hm, he.trans (errAt_assign_of_ne _ _ _ hx)⟩

/-- ECMAScript SyntaxCharacter test:
`^ $ \ . * + ? ( ) [ ] { } |`.  A pattern source containing none of
these consists solely of PatternCharacters, on which `new RegExp` is
guaranteed by the ECMAScript pattern grammar to succeed. -/
def regexMetaChar (c : Char) : Bool :=
  c = '^' || c = '$' || c = '\\' || c = '.' || c = '*' || c = '+' || c = '?' ||
  c = '(' || c = ')' || c = '[' || c = ']' || c = '{' || c = '}' || c = '|'

/-- Metacharacter-free literal pattern: a region where the platform
model is exact — ECMAScript compilation always succeeds and `re.test`
is literal substring search. -/
def plainLiteralPattern (p : String) : Bool :=
  p.data.all (fun c => !(regexMetaChar c))

/-- Pattern attribute on which `validateField` provably cannot throw:
absent or empty (skipped by the `if (field.pattern)` truthiness guard),
or a metacharacter-free literal (guaranteed to compile). -/
def patternSafe : Option String → Bool
  | none => true
  | some p => p == "" || plainLiteralPattern p

/-- Safe-pattern test lifted to a field: the only place `validateField`
can reach `new RegExp` is a string field's own pattern. -/
def topPatternSafe : Field → Bool
  | .string _ _ _ pat => patternSafe pat
  | _ => true

theorem regexScanMain_no_meta (l : List Char)
    (h : ∀ c ∈ l, regexMetaChar c = false) : regexScanMain l = true := by
  induction l with
  | nil => rfl
  | cons c rest ih =>
    have hc := h c (List.mem_cons_self _ _)
    have h1 : ¬ c = '\\' := by
      intro hh
      subst hh
      simp [regexMetaChar] at hc
    have h2 : ¬ c = '[' := by
      intro hh
      subst hh
      simp [regexMetaChar] at hc
    rw [regexScanMain.eq_def]
    simp only [h1, h2, if_false, ite_false]
    exact ih (fun c2 hc2 => h c2 (List.mem_cons_of_mem _ hc2))

theorem patternSafe_compiles (pat : Option String) (h : patternSafe pat = true) :
    patternCompiles pat = true := by
  cases pat with
  | none => rfl
  | some p =>
    simp only [patternSafe] at h
    simp only [patternCompiles]
    rcases Bool.or_eq_true_iff.1 h with h0 | hl
    · exact Bool.or_eq_true_iff.2 (Or.inl h0)
    · refine Bool.or_eq_true_iff.2 (Or.inr ?_)
      rw [regexSyntaxOk]
      apply regexScanMain_no_meta
      intro c hc
      simp only [plainLiteralPattern] at hl
      have h1 := List.all_eq_true.1 hl c hc
      simp at h1
      exact h1

/-- Guard against the key collision of the `'/' + path.join('/')`
serialization: an object field validated at the root path with a
property named `""` writes that child's errors at the root key `"/"`
itself. -/
def objKeysSafe : Field → Path → Bool
  | .object _ props, path => !path.isEmpty || props.all (fun kc => !(kc.1 == ""))
  | _, _ => true

/-- The validation run returned a map (did not throw) carrying `msg`
among the messages at key `k`. -/
def producesMsg (r : Except String ErrorsByPath) (k msg : String) : Prop :=
  ∃ m, r = .ok m ∧ msg ∈ errAt m k

theorem validateField_empty_shapes (f : Field) (path : Path) (v : Option JSON)
    (hpat : topPatternSafe f = true) (hobj : objKeysSafe f path = true)
    (hv : v = none ∨ v = some .null ∨ v = some (.str "") ∨ v = some (.arr [])
      ∨ v = some (.obj [])) :
    ∃ m e, validateField f v path = .ok m ∧
      errAt m (keyOf path)
        = (if requiredOf f && isEmptyVal v then ["This field is required."] else []) ++ e ∧
      ∀ x ∈ e, x ≠ "This field is required." := by
  rcases hv with hv | hv | hv | hv | hv <;> subst hv
  · refine ⟨requiredErrors f none path, [], validateField_absent f path, ?_, by simp⟩
    rw [List.append_nil, requiredErrors_eq, errAt_requiredPart]
  · refine ⟨requiredErrors f (some .null) path, [], validateField_null f path, ?_, by simp⟩
    rw [List.append_nil, requiredErrors_eq, errAt_requiredPart]
  · cases f with
    | string r mnl mxl pat =>
      simp only [topPatternSafe] at hpat
      have hpatc := patternSafe_compiles pat hpat
      obtain ⟨m, e, hm, he, hall⟩ := stringKindCheck_errAt mnl mxl pat "" path
        (requiredErrors (.string r mnl mxl pat) (some (.str "")) path) (keyOf path) hpatc
      refine ⟨m, e, ?_, ?_, fun x hx hxx => not_stringMsgLike_req (hxx ▸ hall x hx)⟩
      · rw [validateField_string_some _ _ _ _ _ _ (fun h => JSON.noConfusion h)]
        exact hm
      · rw [he, requiredErrors_eq, errAt_requiredPart]
    | number r mn mx =>
      refine ⟨addAt (requiredErrors (.number r mn mx) (some (.str "")) path) (keyOf path)
          "Must be a number.", ["Must be a number."], ?_, ?_, ?_⟩
      · rw [validateField_number_some _ _ _ _ _ (fun h => JSON.noConfusion h)]
        exact congrArg Except.ok (numberKindCheck_nan mn mx path _)
      · rw [errAt_addAt, if_pos rfl, requiredErrors_eq, errAt_requiredPart]
      · intro x hx
        rw [List.mem_singleton] at hx
        rw [hx]
        decide
    | enum r options =>
      obtain ⟨e, he, hall⟩ := enumKindCheck_errAt options "" path
        (requiredErrors (.enum r options) (some (.str "")) path) (keyOf path)
      refine ⟨enumKindCheck options "" path
          (requiredErrors (.enum r options) (some (.str "")) path), e, ?_, ?_,
        fun x hx => by rw [hall x hx]; decide⟩
      · rw [validateField_enum_some _ _ _ _ (fun h => JSON.noConfusion h)]
        rfl
      · rw [he, requiredErrors_eq, errAt_requiredPart]
    | boolean r =>
      refine ⟨_, [], validateField_boolean _ _ _, ?_, by simp⟩
      rw [List.append_nil, requiredErrors_eq, errAt_requiredPart]
    | object r props =>
      refine ⟨_, [], validateField_object_nonobj _ _ _ _ (fun kvs h => JSON.noConfusion h),
        ?_, by simp⟩
      rw [List.append_nil, requiredErrors_eq, errAt_requiredPart]
    | array r items mnI mxI =>
      obtain ⟨e, he, hall⟩ := errAt_push_decomp
        (requiredErrors (.array r items mnI mxI) (some (.str "")) path) path
        "Must be an array." (keyOf path)
      refine ⟨_, e, validateField_array_nonarr _ _ _ _ _ _ (fun h => JSON.noConfusion h)
        (fun xs h => JSON.noConfusion h), ?_, fun x hx => by rw [hall x hx]; decide⟩
      rw [he, requiredErrors_eq, errAt_requiredPart]
  · cases f with
    | string r mnl mxl pat =>
      simp only [topPatternSafe] at hpat
      have hpatc := patternSafe_compiles pat hpat
      obtain ⟨m, e, hm, he, hall⟩ := stringKindCheck_errAt mnl mxl pat "" path
        (requiredErrors (.string r mnl mxl pat) (some (.arr [])) path) (keyOf path) hpatc
      refine ⟨m, e, ?_, ?_, fun x hx hxx => not_stringMsgLike_req (hxx ▸ hall x hx)⟩
      · rw [validateField_string_some _ _ _ _ _ _ (fun h => JSON.noConfusion h)]
        exact hm
      · rw [he, requiredErrors_eq, errAt_requiredPart]
    | number r mn mx =>
      refine ⟨addAt (requiredErrors (.number r mn mx) (some (.arr [])) path) (keyOf path)
          "Must be a number.", ["Must be a number."], ?_, ?_, ?_⟩
      · rw [validateField_number_some _ _ _ _ _ (fun h => JSON.noConfusion h)]
        exact congrArg Except.ok (numberKindCheck_nan mn mx path _)
      · rw [errAt_addAt, if_pos rfl, requiredErrors_eq, errAt_requiredPart]
      · intro x hx
        rw [List.mem_singleton] at hx
        rw [hx]
        decide
    | enum r options =>
      obtain ⟨e, he, hall⟩ := enumKindCheck_errAt options "" path
        (requiredErrors (.enum r options) (some (.arr [])) path) (keyOf path)
      refine ⟨enumKindCheck options "" path
          (requiredErrors (.enum r options) (some (.arr [])) path), e, ?_, ?_,
        fun x hx => by rw [hall x hx]; decide⟩
      · rw [validateField_enum_some _ _ _ _ (fun h => JSON.noConfusion h)]
        rfl
      · rw [he, requiredErrors_eq, errAt_requiredPart]
    | boolean r =>
      refine ⟨_, [], validateField_boolean _ _ _, ?_, by simp⟩
      rw [List.append_nil, requiredErrors_eq, errAt_requiredPart]
    | object r props =>
      refine ⟨_, [], validateField_object_nonobj _ _ _ _ (fun kvs h => JSON.noConfusion h),
        ?_, by simp⟩
      rw [List.append_nil, requiredErrors_eq, errAt_requiredPart]
    | array r items mnI mxI =>
      obtain ⟨e, he, hall⟩ := arrayLenCheck_errAt mnI mxI 0 path
        (requiredErrors (.array r items mnI mxI) (some (.arr [])) path) (keyOf path)
      refine ⟨arrayLenCheck mnI mxI 0 path
          (requiredErrors (.array r items mnI mxI) (some (.arr [])) path), e, ?_, ?_, ?_⟩
      · rw [validateField_array_arr, validateItems_nil]
        rfl
      · rw [he, requiredErrors_eq, errAt_requiredPart]
      · intro x hx
        rcases hall x hx with ⟨b, hb⟩ | ⟨b, hb⟩
        · rw [hb]
          exact fun hh => req_ne_at_least_items _ hh.symm
        · rw [hb]
          exact fun hh => req_ne_at_most_items _ hh.symm
  · cases f with
    | string r mnl mxl pat =>
      simp only [topPatternSafe] at hpat
      have hpatc := patternSafe_compiles pat hpat
      obtain ⟨m, e, hm, he, hall⟩ := stringKindCheck_errAt mnl mxl pat "[object Object]" path
        (requiredErrors (.string r mnl mxl pat) (some (.obj [])) path) (keyOf path) hpatc
      refine ⟨m, e, ?_, ?_, fun x hx hxx => not_stringMsgLike_req (hxx ▸ hall x hx)⟩
      · rw [validateField_string_some _ _ _ _ _ _ (fun h => JSON.noConfusion h)]
        exact hm
      · rw [he, requiredErrors_eq, errAt_requiredPart]
    | number r mn mx =>
      refine ⟨addAt (requiredErrors (.number r mn mx) (some (.obj [])) path) (keyOf path)
          "Must be a number.", ["Must be a number."], ?_, ?_, ?_⟩
      · rw [validateField_number_some _ _ _ _ _ (fun h => JSON.noConfusion h)]
        exact congrArg Except.ok (numberKindCheck_nan mn mx path _)
      · rw [errAt_addAt, if_pos rfl, requiredErrors_eq, errAt_requiredPart]
      · intro x hx
        rw [List.mem_singleton] at hx
        rw [hx]
        decide
    | enum r options =>
      obtain ⟨e, he, hall⟩ := enumKindCheck_errAt options "[object Object]" path
        (requiredErrors (.enum r options) (some (.obj [])) path) (keyOf path)
      refine ⟨enumKindCheck options "[object Object]" path
          (requiredErrors (.enum r options) (some (.obj [])) path), e, ?_, ?_,
        fun x hx => by rw [hall x hx]; decide⟩
      · rw [validateField_enum_some _ _ _ _ (fun h => JSON.noConfusion h)]
        rfl
      · rw [he, requiredErrors_eq, errAt_requiredPart]
    | boolean r =>
      refine ⟨_, [], validateField_boolean _ _ _, ?_, by simp⟩
      rw [List.append_nil, requiredErrors_eq, errAt_requiredPart]
    | object r props =>
      simp only [objKeysSafe] at hobj
      have hk : ∀ kv ∈ props, keyOf (path ++ [Step.str kv.1]) ≠ keyOf path := by
        intro kv hkv
        rcases Bool.or_eq_true_iff.1 hobj with hp | ha
        · apply keyOf_append_single_ne
          left
          intro hnil
          rw [hnil] at hp
          simp at hp
        · apply keyOf_append_single_ne
          right
          have h1 := List.all_eq_true.1 ha kv hkv
          simp at h1
          simpa [stepToKey] using h1
      obtain ⟨m, hm, he⟩ := validateProps_absent_values props path
        (requiredErrors (.object r props) (some (.obj [])) path) (keyOf path) hk
      refine ⟨m, [], ?_, ?_, by simp⟩
      · rw [validateField_object_obj]
        exact hm
      · rw [List.append_nil, he, requiredErrors_eq, errAt_requiredPart]
    | array r items mnI mxI =>
      obtain ⟨e, he, hall⟩ := errAt_push_decomp
        (requiredErrors (.array r items mnI mxI) (some (.obj [])) path) path
        "Must be an array." (keyOf path)
      refine ⟨_, e, validateField_array_nonarr _ _ _ _ _ _ (fun h => JSON.noConfusion h)
        (fun xs h => JSON.noConfusion h), ?_, fun x hx => by rw [hall x hx]; decide⟩
      rw [he, requiredErrors_eq, errAt_requiredPart]

/-- C9 counterexample.  For the required string field with the
non-compiling pattern `"["`, validating the empty string does NOT
produce the required message: `new RegExp('[')` throws before the map
is returned, refuting the claim's universal positive part. -/
theorem c9_counterexample :
    requiredOf (Field.string true none none (some "[")) = true ∧
    ¬ producesMsg (validateField (.string true none none (some "[")) (some (.str "")) [])
        (keyOf []) "This field is required." := by
  refine ⟨rfl, ?_⟩
  rintro ⟨m, hm, _⟩
  have h1 : validateField (.string true none none (some "[")) (some (.str "")) []
      = .error "SyntaxError: Invalid regular expression" := by
    rw [validateField.eq_def]
    rfl
  rw [h1] at hm
  exact Except.noConfusion hm

/-- C9 amended.  For every required field whose own pattern (if any)
is empty or a metacharacter-free literal — a region where ECMAScript
`new RegExp` provably succeeds, so `validateField` cannot throw — and
which (when an object validated at the root path) has no immediate
property named `""`: validating the empty mapping `{}` produces no
`"This field is required."` message at the current path, while
validating the absent value, `null`, the empty string, and the empty
array each does produce it there. -/
theorem c9_amended_empty_object_not_empty (f : Field) (path : Path)
    (hreq : requiredOf f = true) (hpat : topPatternSafe f = true)
    (hobj : objKeysSafe f path = true) :
    (¬ producesMsg (validateField f (some (.obj [])) path) (keyOf path)
        "This field is required.") ∧
    producesMsg (validateField f none path) (keyOf path) "This field is required." ∧
    producesMsg (validateField f (some .null) path) (keyOf path)
      "This field is required." ∧
    producesMsg (validateField f (some (.str "")) path) (keyOf path)
      "This field is required." ∧
    producesMsg (validateField f (some (.arr [])) path) (keyOf path)
      "This field is required." := by
  refine ⟨?_, ?_, ?_, ?_, ?_⟩
  · obtain ⟨m, e, hm, he, hall⟩ := validateField_empty_shapes f path (some (.obj []))
      hpat hobj (Or.inr (Or.inr (Or.inr (Or.inr rfl))))
    rintro ⟨m2, hm2, hmem⟩
    rw [hm] at hm2
    injection hm2 with hmm
    subst hmm
    rw [he] at hmem
    simp [show isEmptyVal (some (JSON.obj [])) = false from rfl] at hmem
    exact hall _ hmem rfl
  · obtain ⟨m, e, hm, he, _⟩ := validateField_empty_shapes f path none hpat hobj (Or.inl rfl)
    refine ⟨m, hm, ?_⟩
    rw [he]
    simp [hreq, show isEmptyVal none = true from rfl]
  · obtain ⟨m, e, hm, he, _⟩ := validateField_empty_shapes f path (some .null) hpat hobj
      (Or.inr (Or.inl rfl))
    refine ⟨m, hm, ?_⟩
    rw [he]
    simp [hreq, show isEmptyVal (some JSON.null) = true from rfl]
  · obtain ⟨m, e, hm, he, _⟩ := validateField_empty_shapes f path (some (.str "")) hpat hobj
      (Or.inr (Or.inr (Or.inl rfl)))
    refine ⟨m, hm, ?_⟩
    rw [he]
    simp [hreq, show isEmptyVal (some (JSON.str "")) = true from rfl]
  · obtain ⟨m, e, hm, he, _⟩ := validateField_empty_shapes f path (some (.arr [])) hpat hobj
      (Or.inr (Or.inr (Or.inr (Or.inl rfl))))
    refine ⟨m, hm, ?_⟩
    rw [he]
    simp [hreq, show isEmptyVal (some (JSON.arr [])) = true from rfl]

/-- C9 amended witness at the required plain string field and the root
path. -/
theorem c9_amended_witness :
    requiredOf (Field.string true none none none) = true ∧
    topPatternSafe (Field.string true none none none) = true ∧
    objKeysSafe (Field.string true none none none) [] = true ∧
    ((¬ producesMsg (validateField (.string true none none none) (some (.obj [])) [])
        (keyOf []) "This field is required.") ∧
      producesMsg (validateField (.string true none none none) none [])
        (keyOf []) "This field is required." ∧
      producesMsg (validateField (.string true none none none) (some .null) [])
        (keyOf []) "This field is required." ∧
      producesMsg (validateField (.string true none none none) (some (.str "")) [])
        (keyOf []) "This field is required." ∧
      producesMsg (validateField (.string true none none none) (some (.arr [])) [])
        (keyOf []) "This field is required.") :=
  ⟨rfl, rfl, rfl, c9_amended_empty_object_not_empty (.string true none none none) [] rfl rfl rfl⟩

/-- C10 witness at a concrete object field with a required property and
the non-mapping value `5`: the returned map is empty. -/
theorem c10_witness :
    (JSON.num 5 ≠ JSON.null) ∧ (∀ kvs, JSON.num 5 ≠ JSON.obj kvs) ∧
    validateField (.object false [("name", .string true none none none)])
        (some (.num 5)) [] = .ok [] :=
  ⟨fun h => JSON.noConfusion h, fun _ h => JSON.noConfusion h,
    c10_object_kind_mismatch_silent false [("name", .string true none none none)] []
      (.num 5) (fun h => JSON.noConfusion h) (fun _ h => JSON.noConfusion h)⟩

end SchemaMold
